import Mathlib

/-!
Verification of the number-assignment application (src/app.py) against its
natural-language specification.

The store is Supabase: one dynamically created table per meeting holding the
slot rows, plus a `meetings_metadata` registry table.  We embed the store as a
partial map from table names to lists of slot rows together with the metadata
list, and the participant allocation branch (app.py lines 156-209) as a pure
function of the store, the Streamlit session state and the query parameters.
Timestamps are modelled as natural numbers; `random.choice` is modelled by an
arbitrary index `pick` into the observed list of available numbers; the Python
float percentage is modelled exactly over the rationals.
-/

/-- One row of a meeting table (app.py lines 66-73: columns `number`,
`assigned`, `assigned_at`, `user_id`; the surrogate `id` column is never read
by the application and is omitted). -/
structure Slot where
  number : Nat
  assigned : Bool
  assigned_at : Option Nat
  user_id : Option String
deriving DecidableEq, Repr

/-- One row of the `meetings_metadata` registry table
(app.py lines 58-63). -/
structure MeetingMeta where
  table_name : String
  meeting_name : String
  created_at : Nat
  max_number : Nat
deriving DecidableEq, Repr

/-- The durable record store: the dynamically created per-meeting tables
(a partial map from table name to slot rows) and the metadata registry. -/
structure Store where
  tables : String → Option (List Slot)
  metadata : List MeetingMeta

/-- `check_table_exists` (app.py lines 46-52): a select on the table succeeds
exactly when the table exists. -/
def check_table_exists (s : Store) (name : String) : Bool :=
  (s.tables name).isSome

/-- The rows of table `name`; selecting from a missing table raises in the
source, so callers consult `check_table_exists` first and this default is
never observed on the guarded paths. -/
def getSlots (s : Store) (name : String) : List Slot :=
  (s.tables name).getD []

/-- Overwrite the contents of table `name`. -/
def setTable (s : Store) (name : String) (rows : List Slot) : Store :=
  { s with tables := fun k => if k = name then some rows else s.tables k }

/-- The claim write of the allocation branch (app.py lines 192-196):
`update({assigned: True, assigned_at: now, user_id: uid}).eq("number", n)` —
every row whose `number` equals `n` is overwritten, with no condition on its
current `assigned` value. -/
def updateByNumber (rows : List Slot) (n : Nat) (uid : String) (now : Nat) :
    List Slot :=
  rows.map fun sl =>
    if sl.number = n then
      { sl with assigned := true, assigned_at := some now, user_id := some uid }
    else sl

/-- The identity lookup (app.py line 176):
`select("*").eq("user_id", user_id)`. -/
def existingFor (rows : List Slot) (uid : String) : List Slot :=
  rows.filter fun sl => sl.user_id = some uid

/-- The observation of the unassigned set (app.py lines 188-190):
`select("*").eq("assigned", False)` followed by extracting the numbers. -/
def availableNumbers (rows : List Slot) : List Nat :=
  (rows.filter fun sl => sl.assigned = false).map Slot.number

/-- `random.choice(available_numbers)` modelled by an arbitrary index `pick`
into the observed list. -/
def chooseFrom (l : List Nat) (pick : Nat) : Nat :=
  l.getD (pick % l.length) 0

/-- Outcome of the participant allocation branch. -/
inductive AllocResult where
  | notFound
  | exhausted
  | ok (n : Nat)
deriving DecidableEq, Repr

/-- The meeting heading shown to the participant (app.py lines 168-169):
the first metadata row for the table when one exists, else the literal
fallback string. -/
def meetingDisplay (s : Store) (name : String) : String :=
  match s.metadata.filter (fun m => m.table_name = name) with
  | [] => "Meeting"
  | m :: _ => m.meeting_name

/-- The participant allocation branch (app.py lines 163-206) as a function of
the store, the cached `st.session_state["assigned_number"]` and the caller
identity `st.session_state["user_id"]`.  Returns the displayed outcome, the
store after the branch and the session cache after the branch.
Order of checks, as in the source: table existence (line 163), identity
lookup (lines 176-178), session cache (line 186), observation of the
unassigned set and unconditional write keyed by number (lines 188-197),
exhaustion error (lines 198-200). -/
def allocate (s : Store) (session : Option Nat) (uid name : String)
    (pick now : Nat) : AllocResult × Store × Option Nat :=
  if check_table_exists s name then
    let rows := getSlots s name
    match existingFor rows uid with
    | sl :: _ => (AllocResult.ok sl.number, s, some sl.number)
    | [] =>
      match session with
      | some n => (AllocResult.ok n, s, some n)
      | none =>
        let avail := availableNumbers rows
        if avail.isEmpty then
          (AllocResult.exhausted, s, none)
        else
          let n := chooseFrom avail pick
          (AllocResult.ok n, setTable s name (updateByNumber rows n uid now),
            some n)
  else (AllocResult.notFound, s, session)

/-- A freshly inserted slot row (app.py line 86). -/
def mkSlot (j : Nat) : Slot :=
  { number := j, assigned := false, assigned_at := none, user_id := none }

/-- The batched number inserts of `create_meeting_table` (app.py lines 82-88):
`for i in range(0, max_number, 100)` inserts, at loop index `i`, the rows for
`j in range(i+1, min(i+100, max_number)+1)`.  `insertBatchesN i maxn b` is the
concatenation of the first `b` batches starting at loop index `i`; the guard
`i < maxn` mirrors the loop condition of `range(0, max_number, 100)`. -/
def insertBatchesN (i maxn b : Nat) : List Slot :=
  match b with
  | 0 => []
  | b' + 1 =>
    if i < maxn then
      ((List.range' (i + 1) (min (i + 100) maxn - i)).map mkSlot) ++
        insertBatchesN (i + 100) maxn b'
    else []

/-- The number of iterations of `range(0, max_number, 100)`. -/
def numBatches (maxn : Nat) : Nat :=
  (maxn + 99) / 100

/-- All rows inserted by the batch loop of `create_meeting_table`. -/
def insertBatches (maxn : Nat) : List Slot :=
  insertBatchesN 0 maxn (numBatches maxn)

/-- `create_meeting_table` (app.py lines 54-90), success path: register the
metadata row, create the empty table, insert all number batches. -/
def create_meeting_table (s : Store) (name mname : String) (now maxn : Nat) :
    Store :=
  let s1 : Store :=
    { s with metadata := s.metadata ++
        [{ table_name := name, meeting_name := mname, created_at := now,
           max_number := maxn }] }
  let s2 : Store := setTable s1 name []
  setTable s2 name (insertBatches maxn)

/-- The store state of a provisioning run that registered the metadata row,
created the table, and then failed after inserting only `b` of the number
batches. -/
def provisionPartway (s : Store) (name mname : String) (now maxn b : Nat) :
    Store :=
  let s1 : Store :=
    { s with metadata := s.metadata ++
        [{ table_name := name, meeting_name := mname, created_at := now,
           max_number := maxn }] }
  let s2 : Store := setTable s1 name []
  setTable s2 name (insertBatchesN 0 maxn b)

/-- The rollback of `create_meeting_table` (app.py lines 93-95): delete every
metadata row whose `table_name` matches, then `DROP TABLE IF EXISTS` the
meeting table. -/
def rollback_meeting (s : Store) (name : String) : Store :=
  { tables := fun k => if k = name then none else s.tables k,
    metadata := s.metadata.filter fun m => ¬ m.table_name = name }

/-- `get_available_meetings` (app.py lines 100-107): all metadata rows. -/
def get_available_meetings (s : Store) : List MeetingMeta :=
  s.metadata

/-- Statistics (app.py lines 344-345): `total_numbers` is the exact row count
of the meeting table. -/
def total_numbers (rows : List Slot) : Nat :=
  rows.length

/-- Statistics (app.py lines 346-347): `assigned_numbers` is the exact count
of rows with `assigned = True`. -/
def assigned_numbers (rows : List Slot) : Nat :=
  (rows.filter fun sl => sl.assigned = true).length

/-- Statistics (app.py line 348):
`(assigned_numbers / total_numbers) * 100 if total_numbers > 0 else 0`,
with Python float division modelled exactly over the rationals. -/
def percentage (rows : List Slot) : ℚ :=
  if 0 < total_numbers rows then
    ((assigned_numbers rows : ℚ) / (total_numbers rows : ℚ)) * 100
  else 0

/-- The histogram source rows (app.py lines 359-367): the rows with
`assigned = True`, keeping those whose `assigned_at` is non-null.  The
`order("assigned_at")` of the query only permutes the rows and the hourly
grouping is done by pandas on these rows; the claims below concern only
whether this list is empty. -/
def time_data (rows : List Slot) : List Nat :=
  (rows.filter fun sl => sl.assigned = true).filterMap Slot.assigned_at

/-- The empty store: no tables, no metadata. -/
def emptyStore : Store :=
  { tables := fun _ => none, metadata := [] }

/-- Sample store: a single meeting table `t` holding one unassigned slot,
with no metadata row registered for it. -/
def sampleStore : Store :=
  { tables := fun k => if k = "t" then some [mkSlot 1] else none,
    metadata := [] }

/-- A slot already assigned to identity `a` at time 0. -/
def slotA : Slot :=
  { number := 1, assigned := true, assigned_at := some 0, user_id := some "a" }

/-- The same slot after the claim write overwrites it for identity `b` at
time 5. -/
def slotB : Slot :=
  { number := 1, assigned := true, assigned_at := some 5, user_id := some "b" }

/-- Sample store whose single slot is already assigned to identity `a`. -/
def fullStore : Store :=
  { tables := fun k => if k = "t" then some [slotA] else none,
    metadata := [] }

/-! ### Basic store lemmas -/

theorem getSlots_setTable (s : Store) (name : String) (rows : List Slot) :
    getSlots (setTable s name rows) name = rows := by
  simp [getSlots, setTable]

theorem check_table_exists_setTable (s : Store) (name : String)
    (rows : List Slot) :
    check_table_exists (setTable s name rows) name = true := by
  simp [check_table_exists, setTable]

theorem chooseFrom_mem (l : List Nat) (pick : Nat) (h : l ≠ []) :
    chooseFrom l pick ∈ l := by
  unfold chooseFrom
  have hlen : 0 < l.length := List.length_pos.mpr h
  have hlt : pick % l.length < l.length := Nat.mod_lt _ hlen
  rw [List.getD_eq_getElem l 0 hlt]
  exact List.getElem_mem hlt

/-! ### C1 -/

/-- C1: the claim asserts the chosen slot is transitioned only if it is still
unassigned at the moment of the write.  Counterexample: the write of app.py
lines 192-196 is an update keyed only by `number`; applied to a slot already
assigned to identity `a`, it still fires and re-assigns the slot to `b`. -/
theorem C1_counterexample :
    (updateByNumber [slotA] 1 "b" 5 ≠ [slotA]) ∧
    updateByNumber [slotA] 1 "b" 5 = [slotB] := by
  decide

/-- C1 amended: the claim step of allocate is a separate read of the
unassigned set followed by an update keyed only by `number` that is
unconditional — every row matching the chosen number is overwritten with the
caller identity and timestamp regardless of whether it is still unassigned at
the moment of the write. -/
theorem C1_unconditional_update (rows : List Slot) (n : Nat) (uid : String)
    (now : Nat) (sl : Slot) (hmem : sl ∈ rows) (hn : sl.number = n) :
    { sl with assigned := true, assigned_at := some now, user_id := some uid }
      ∈ updateByNumber rows n uid now := by
  unfold updateByNumber
  refine List.mem_map.mpr ⟨sl, hmem, ?_⟩
  rw [if_pos hn]

/-- Witness for C1 amended at a concrete already-assigned slot. -/
theorem C1_unconditional_update_witness :
    slotB ∈ updateByNumber [slotA] 1 "b" 5 :=
  C1_unconditional_update [slotA] 1 "b" 5 slotA (by decide) rfl

/-! ### C4, C5, C9, C10 -/

/-- C4: with no existing slot for the identity, no cached session number, and
an empty unassigned set, the allocation branch reports exhaustion and leaves
the store (and session) untouched. -/
theorem C4_pool_exhausted (s : Store) (uid name : String) (pick now : Nat)
    (htab : check_table_exists s name = true)
    (hex : existingFor (getSlots s name) uid = [])
    (hav : availableNumbers (getSlots s name) = []) :
    allocate s none uid name pick now = (AllocResult.exhausted, s, none) := by
  simp [allocate, htab, hex, hav]

/-- Witness for C4: a table whose only slot is assigned to `a`; identity `b`
with a fresh session hits exhaustion, store unchanged. -/
theorem C4_pool_exhausted_witness :
    allocate fullStore none "b" "t" 0 7 =
      (AllocResult.exhausted, fullStore, none) :=
  C4_pool_exhausted fullStore "b" "t" 0 7 (by decide) (by decide) (by decide)

/-- C5: when the meeting table does not exist, the allocation branch stops
with the not-found error before touching the store or the session. -/
theorem C5_pool_not_found (s : Store) (session : Option Nat)
    (uid name : String) (pick now : Nat)
    (htab : check_table_exists s name = false) :
    allocate s session uid name pick now =
      (AllocResult.notFound, s, session) := by
  simp [allocate, htab]

/-- Witness for C5 on a store with no tables at all. -/
theorem C5_pool_not_found_witness :
    allocate { tables := fun _ => none, metadata := [] } none "u" "missing"
      0 0 =
      (AllocResult.notFound, { tables := fun _ => none, metadata := [] },
        none) :=
  C5_pool_not_found _ none "u" "missing" 0 0 (by decide)

/-- C9: a cached session number with no store slot for the identity is
returned as-is, with no store write, so the returned number is backed by no
slot assignment in the store. -/
theorem C9_session_cached (s : Store) (uid name : String) (n pick now : Nat)
    (htab : check_table_exists s name = true)
    (hex : existingFor (getSlots s name) uid = []) :
    allocate s (some n) uid name pick now = (AllocResult.ok n, s, some n) ∧
    existingFor (getSlots (allocate s (some n) uid name pick now).2.1 name)
      uid = [] := by
  have h : allocate s (some n) uid name pick now =
      (AllocResult.ok n, s, some n) := by
    simp [allocate, htab, hex]
  exact ⟨h, by rw [h]; exact hex⟩

/-- Witness for C9: the session caches number 7, the store has no slot for
identity `b`, and 7 is returned while the store keeps no trace of it. -/
theorem C9_session_cached_witness :
    allocate sampleStore (some 7) "b" "t" 0 0 =
      (AllocResult.ok 7, sampleStore, some 7) ∧
    existingFor (getSlots (allocate sampleStore (some 7) "b" "t" 0 0).2.1 "t")
      "b" = [] :=
  C9_session_cached sampleStore "b" "t" 7 0 0 (by decide) (by decide)

/-- C10: the allocation branch reports the pool missing exactly when the
physical meeting table is missing, independently of registry metadata; with
the table present but no metadata row, the branch still serves the caller and
shows the fallback heading. -/
theorem C10_existence_by_table (s : Store) (session : Option Nat)
    (uid name : String) (pick now : Nat) :
    ((allocate s session uid name pick now).1 = AllocResult.notFound ↔
      check_table_exists s name = false) ∧
    (s.metadata.filter (fun m => m.table_name = name) = [] →
      meetingDisplay s name = "Meeting") := by
  constructor
  · constructor
    · intro hk
      by_contra hne
      have htab : check_table_exists s name = true := by
        cases h : check_table_exists s name
        · exact absurd h hne
        · rfl
      revert hk
      simp only [allocate, htab, if_true]
      cases hx : existingFor (getSlots s name) uid with
      | cons a t => simp
      | nil =>
        cases session with
        | some n => simp
        | none =>
          by_cases he : (availableNumbers (getSlots s name)).isEmpty <;>
            simp [he]
    · intro hf
      simp [allocate, hf]
  · intro hm
    unfold meetingDisplay
    rw [hm]

/-- Witness for C10: `sampleStore` has table `t` but no metadata row, so the
branch does not report not-found and the heading falls back to `Meeting`. -/
theorem C10_existence_by_table_witness :
    ¬ ((allocate sampleStore none "u" "t" 0 0).1 = AllocResult.notFound) ∧
    meetingDisplay sampleStore "t" = "Meeting" := by
  refine ⟨fun hk => ?_,
    (C10_existence_by_table sampleStore none "u" "t" 0 0).2 rfl⟩
  have h := (C10_existence_by_table sampleStore none "u" "t" 0 0).1.mp hk
  exact absurd h (by decide)

/-! ### C8 -/

/-- C8: the statistics page computes `total` as the count of all slots,
`assigned` as the count of slots with `assigned = true`, and
`percentage = assigned/total*100` with `0` when `total = 0`; a pool with zero
assigned slots yields a zero percentage and an empty histogram source. -/
theorem C8_statistics (rows : List Slot) :
    total_numbers rows = rows.length ∧
    assigned_numbers rows = (rows.filter fun sl => sl.assigned = true).length ∧
    (0 < total_numbers rows →
      percentage rows =
        ((assigned_numbers rows : ℚ) / (total_numbers rows : ℚ)) * 100) ∧
    (total_numbers rows = 0 → percentage rows = 0) ∧
    (assigned_numbers rows = 0 → percentage rows = 0 ∧ time_data rows = []) := by
  refine ⟨rfl, rfl, ?_, ?_, ?_⟩
  · intro h
    simp [percentage, h]
  · intro h
    simp [percentage, h]
  · intro h
    have hfil : (rows.filter fun sl => sl.assigned = true) = [] := by
      have := h
      unfold assigned_numbers at this
      exact List.length_eq_zero.mp this
    constructor
    · unfold percentage
      split
      · rw [h]
        simp
      · rfl
    · unfold time_data
      rw [hfil]
      rfl

/-- Witness for C8: a pool with one unassigned slot has zero assigned slots,
a zero percentage and an empty histogram source. -/
theorem C8_statistics_witness :
    percentage [mkSlot 1] = 0 ∧ time_data [mkSlot 1] = [] :=
  (C8_statistics [mkSlot 1]).2.2.2.2 rfl

/-! ### C6 -/

theorem insertBatchesN_map_number (b : Nat) :
    ∀ i maxn : Nat, maxn ≤ i + 100 * b →
      (insertBatchesN i maxn b).map Slot.number =
        List.range' (i + 1) (maxn - i) := by
  induction b with
  | zero =>
    intro i maxn h
    have h0 : maxn - i = 0 := by omega
    rw [h0]
    rfl
  | succ b ih =>
    intro i maxn h
    simp only [insertBatchesN]
    by_cases hlt : i < maxn
    · rw [if_pos hlt, List.map_append, List.map_map]
      have hm : Slot.number ∘ mkSlot = id := rfl
      rw [hm, List.map_id]
      rw [ih (i + 100) maxn (by omega)]
      by_cases h2 : i + 100 ≤ maxn
      · have h3 : min (i + 100) maxn - i = 100 := by omega
        rw [h3]
        have happ := List.range'_append (i + 1) 100 (maxn - (i + 100)) 1
        have e1 : i + 1 + 1 * 100 = i + 100 + 1 := by omega
        have e2 : maxn - (i + 100) + 100 = maxn - i := by omega
        rw [e1, e2] at happ
        exact happ
      · have h3 : min (i + 100) maxn - i = maxn - i := by omega
        have h4 : maxn - (i + 100) = 0 := by omega
        rw [h3, h4]
        simp
    · rw [if_neg hlt]
      have h0 : maxn - i = 0 := by omega
      rw [h0]
      rfl

theorem insertBatchesN_unassigned (b : Nat) :
    ∀ i maxn : Nat, ∀ sl ∈ insertBatchesN i maxn b,
      sl.assigned = false ∧ sl.user_id = none ∧ sl.assigned_at = none := by
  induction b with
  | zero =>
    intro i maxn sl hsl
    cases hsl
  | succ b ih =>
    intro i maxn sl hsl
    simp only [insertBatchesN] at hsl
    by_cases hlt : i < maxn
    · rw [if_pos hlt] at hsl
      rcases List.mem_append.mp hsl with hm | hm
      · rcases List.mem_map.mp hm with ⟨j, _, rfl⟩
        exact ⟨rfl, rfl, rfl⟩
      · exact ih (i + 100) maxn sl hm
    · rw [if_neg hlt] at hsl
      cases hsl

theorem insertBatches_map_number (maxn : Nat) :
    (insertBatches maxn).map Slot.number = List.range' 1 maxn := by
  have hb : maxn ≤ 0 + 100 * numBatches maxn := by
    unfold numBatches
    omega
  have hmap := insertBatchesN_map_number (numBatches maxn) 0 maxn hb
  simpa using hmap

/-- C6: provisioning a pool of capacity `maxn` fills the meeting table with
exactly the slot rows numbered `1..maxn`, each number occurring exactly once,
and every inserted row initially unassigned with no holder and no timestamp,
across the batched inserts. -/
theorem C6_provisioning (s : Store) (name mname : String) (now maxn : Nat) :
    getSlots (create_meeting_table s name mname now maxn) name =
      insertBatches maxn ∧
    (insertBatches maxn).map Slot.number = List.range' 1 maxn ∧
    ((insertBatches maxn).map Slot.number).Nodup ∧
    ∀ sl ∈ insertBatches maxn,
      sl.assigned = false ∧ sl.user_id = none ∧ sl.assigned_at = none := by
  refine ⟨getSlots_setTable _ _ _, insertBatches_map_number maxn, ?_, ?_⟩
  · rw [insertBatches_map_number maxn]
    exact List.nodup_range' _ _
  · intro sl hsl
    exact insertBatchesN_unassigned (numBatches maxn) 0 maxn sl hsl

/-- Witness for C6 at capacity 250 (three batches): the provisioned table is
the batch concatenation, and its first slot is a fresh unassigned slot. -/
theorem C6_provisioning_witness :
    getSlots (create_meeting_table emptyStore "t" "Demo" 0 250) "t" =
      insertBatches 250 ∧
    (mkSlot 1 ∈ insertBatches 250) ∧
    ((mkSlot 1).assigned = false ∧ (mkSlot 1).user_id = none ∧
      (mkSlot 1).assigned_at = none) :=
  ⟨(C6_provisioning emptyStore "t" "Demo" 0 250).1, by decide,
    (C6_provisioning emptyStore "t" "Demo" 0 250).2.2.2 (mkSlot 1)
      (by decide)⟩

/-! ### C7 -/

/-- C7: if provisioning fails after inserting only `b` of the number batches,
the rollback deletes every metadata row for the pool and drops its table, so
the pool is visible neither via the registry listing nor via slot lookups. -/
theorem C7_rollback (s : Store) (name mname uid : String) (now maxn b : Nat) :
    (∀ m ∈ get_available_meetings
        (rollback_meeting (provisionPartway s name mname now maxn b) name),
      m.table_name ≠ name) ∧
    check_table_exists
      (rollback_meeting (provisionPartway s name mname now maxn b) name)
      name = false ∧
    existingFor
      (getSlots (rollback_meeting (provisionPartway s name mname now maxn b)
        name) name) uid = [] := by
  refine ⟨?_, ?_, ?_⟩
  · intro m hm
    simp only [get_available_meetings, rollback_meeting,
      List.mem_filter] at hm
    simpa using hm.2
  · simp [check_table_exists, rollback_meeting]
  · simp [existingFor, getSlots, rollback_meeting]

/-- Witness for C7: Scenario C, a capacity-250 pool failing after 2 of its 3
batches; after rollback the table is gone and the registry shows no row. -/
theorem C7_rollback_witness :
    check_table_exists
      (rollback_meeting (provisionPartway emptyStore "t" "Demo" 0 250 2) "t")
      "t" = false ∧
    existingFor
      (getSlots (rollback_meeting (provisionPartway emptyStore "t" "Demo" 0
        250 2) "t") "t") "u" = [] :=
  ⟨(C7_rollback emptyStore "t" "Demo" "u" 0 250 2).2.1,
    (C7_rollback emptyStore "t" "Demo" "u" 0 250 2).2.2⟩

/-! ### C2 -/

theorem existingFor_update (rows : List Slot) (n : Nat) (uid : String)
    (now : Nat) (hex : existingFor rows uid = []) :
    existingFor (updateByNumber rows n uid now) uid =
      (rows.filter fun sl => sl.number = n).map fun sl =>
        { sl with assigned := true, assigned_at := some now,
                  user_id := some uid } := by
  induction rows with
  | nil => rfl
  | cons a t ih =>
    by_cases ha : a.user_id = some uid
    · exfalso
      have hmem : a ∈ existingFor (a :: t) uid :=
        List.mem_filter.mpr ⟨List.mem_cons_self a t, by simpa using ha⟩
      rw [hex] at hmem
      cases hmem
    · have hex' : existingFor t uid = [] := by
        have h2 : ∀ x ∈ t, ¬ x.user_id = some uid := by
          unfold existingFor at hex
          rw [List.filter_cons] at hex
          simpa [ha] using hex
        unfold existingFor
        simpa using h2
      have iht := ih hex'
      unfold updateByNumber existingFor at iht ⊢
      rw [List.map_cons, List.filter_cons, List.filter_cons]
      by_cases hn : a.number = n
      · rw [if_pos hn]
        rw [if_pos (show decide ((Slot.mk a.number true (some now)
            (some uid)).user_id = some uid) = true by simp)]
        rw [if_pos (by simpa using hn)]
        rw [List.map_cons]
        exact congrArg (List.cons _) iht
      · rw [if_neg hn]
        rw [if_neg (by simpa using ha), if_neg (by simpa using hn)]
        exact iht

theorem allocate_ok_state (s : Store) (uid name : String) (pick now n : Nat)
    (s' : Store) (o : Option Nat)
    (h : allocate s none uid name pick now = (AllocResult.ok n, s', o)) :
    check_table_exists s' name = true ∧
    ∃ sl rest, existingFor (getSlots s' name) uid = sl :: rest ∧
      sl.number = n := by
  by_cases htab : check_table_exists s name
  · simp only [allocate, htab, if_true] at h
    cases hex : existingFor (getSlots s name) uid with
    | cons sl rest =>
      rw [hex] at h
      simp only [Prod.mk.injEq, AllocResult.ok.injEq] at h
      obtain ⟨hn, hs, _⟩ := h
      subst hs
      exact ⟨htab, sl, rest, hex, hn⟩
    | nil =>
      rw [hex] at h
      cases hav : (availableNumbers (getSlots s name)).isEmpty with
      | true =>
        rw [hav] at h
        simp at h
      | false =>
        rw [hav] at h
        simp only [Bool.false_eq_true, if_false, Prod.mk.injEq,
          AllocResult.ok.injEq] at h
        obtain ⟨hn, hs, _⟩ := h
        have hne : availableNumbers (getSlots s name) ≠ [] := by
          intro hnil
          rw [hnil] at hav
          cases hav
        have hmem : n ∈ availableNumbers (getSlots s name) := by
          rw [← hn]
          exact chooseFrom_mem _ pick hne
        obtain ⟨sl0, hsl0f, hsl0n⟩ :=
          List.mem_map.mp hmem
        have hsl0 := List.mem_filter.mp hsl0f
        have hfil : sl0 ∈
            (getSlots s name).filter fun sl => sl.number = n := by
          refine List.mem_filter.mpr ⟨hsl0.1, by simpa using hsl0n⟩
        obtain ⟨c, cs, hcons⟩ :=
          List.exists_cons_of_ne_nil
            (l := (getSlots s name).filter fun sl => sl.number = n)
            (by intro hnil; rw [hnil] at hfil; cases hfil)
        have hupd := existingFor_update (getSlots s name) n uid now hex
        rw [hcons] at hupd
        have hcnum : c.number = n := by
          have : c ∈ (getSlots s name).filter fun sl => sl.number = n := by
            rw [hcons]
            exact List.mem_cons_self c cs
          simpa using (List.mem_filter.mp this).2
        refine ⟨?_, ?_⟩
        · rw [← hs]
          exact check_table_exists_setTable s name _
        · rw [← hs, getSlots_setTable, hn, hupd, List.map_cons]
          exact ⟨_, _, rfl, hcnum⟩
  · rw [Bool.not_eq_true] at htab
    simp only [allocate, htab] at h
    simp at h

/-- C2: after a first successful `allocate` for an identity with a fresh
session, every later `allocate` call for that identity returns the same
number, because the branch first looks up the existing slot with that
`user_id` and returns its number, touching nothing. -/
theorem C2_idempotent (s : Store) (uid name : String)
    (pick now pick2 now2 : Nat) (session2 : Option Nat) (n : Nat)
    (s' : Store) (o : Option Nat)
    (h : allocate s none uid name pick now = (AllocResult.ok n, s', o)) :
    allocate s' session2 uid name pick2 now2 =
      (AllocResult.ok n, s', some n) := by
  obtain ⟨htab, sl, rest, hex, hn⟩ :=
    allocate_ok_state s uid name pick now n s' o h
  simp only [allocate, htab, if_true, hex]
  rw [hn]

/-- Witness for C2: identity `u` claims the single slot of `sampleStore`,
getting number 1; a repeated call (with different pick and time) returns 1
again and leaves the store untouched. -/
theorem C2_idempotent_witness :
    allocate (setTable sampleStore "t" (updateByNumber [mkSlot 1] 1 "u" 3))
        none "u" "t" 5 9 =
      (AllocResult.ok 1,
        setTable sampleStore "t" (updateByNumber [mkSlot 1] 1 "u" 3),
        some 1) :=
  C2_idempotent sampleStore "u" "t" 0 3 5 9 none 1
    (setTable sampleStore "t" (updateByNumber [mkSlot 1] 1 "u" 3))
    (some 1) (by rfl)

/-! ### C3 -/

/-- The per-table data-model invariants: slot numbers are unique, each
identity holds at most one slot, and unassigned slots have no holder. -/
def PoolInv (rows : List Slot) : Prop :=
  (rows.map Slot.number).Nodup ∧
  (∀ uid : String, (existingFor rows uid).length ≤ 1) ∧
  (∀ sl ∈ rows, sl.assigned = false → sl.user_id = none)

/-- Store states of meeting table `name` reachable by provisioning it on a
store where the table does not yet exist (master mode guards creation with
`check_table_exists`, app.py line 248) followed by any sequence of
participant allocation calls, each call atomic as a whole. -/
inductive Reachable (name : String) : Store → Prop where
  | provisioned (s : Store) (mname : String) (now maxn : Nat)
      (hfresh : check_table_exists s name = false) :
      Reachable name (create_meeting_table s name mname now maxn)
  | step (s : Store) (session : Option Nat) (uid : String) (pick now : Nat)
      (h : Reachable name s) :
      Reachable name (allocate s session uid name pick now).2.1

theorem updateByNumber_map_number (rows : List Slot) (n : Nat) (uid : String)
    (now : Nat) :
    (updateByNumber rows n uid now).map Slot.number =
      rows.map Slot.number := by
  unfold updateByNumber
  rw [List.map_map]
  apply List.map_congr_left
  intro a _
  by_cases hn : a.number = n
  · rw [Function.comp_apply, if_pos hn]
  · rw [Function.comp_apply, if_neg hn]

theorem filter_number_length_le_one (rows : List Slot) (n : Nat)
    (hnd : (rows.map Slot.number).Nodup) :
    ((rows.filter fun sl => sl.number = n).length ≤ 1) := by
  induction rows with
  | nil => simp
  | cons a t ih =>
    rw [List.map_cons, List.nodup_cons] at hnd
    rw [List.filter_cons]
    by_cases hn : a.number = n
    · rw [if_pos (by simpa using hn)]
      have ht : (t.filter fun sl => sl.number = n) = [] := by
        rw [List.filter_eq_nil_iff]
        intro x hx hxn
        apply hnd.1
        have hx2 : x.number ∈ t.map Slot.number :=
          List.mem_map_of_mem Slot.number hx
        have hxn2 : x.number = n := by simpa using hxn
        rw [hxn2, ← hn] at hx2
        exact hx2
      rw [ht]
      simp
    · rw [if_neg (by simpa using hn)]
      exact ih hnd.2

theorem existingFor_update_ne (rows : List Slot) (n : Nat) (uid u : String)
    (now : Nat) (hne : u ≠ uid) :
    (existingFor (updateByNumber rows n uid now) u).length ≤
      (existingFor rows u).length := by
  induction rows with
  | nil => simp [existingFor, updateByNumber]
  | cons a t ih =>
    unfold updateByNumber existingFor at ih ⊢
    rw [List.map_cons, List.filter_cons, List.filter_cons]
    by_cases hn : a.number = n
    · rw [if_pos hn]
      rw [if_neg (show ¬ (decide ((Slot.mk a.number true (some now)
          (some uid)).user_id = some u) = true) by
        simp
        intro hc
        exact hne hc.symm)]
      refine le_trans ih ?_
      split
      · rw [List.length_cons]
        exact Nat.le_succ _
      · exact le_refl _
    · rw [if_neg hn]
      by_cases hu : a.user_id = some u
      · rw [if_pos (by simpa using hu), if_pos (by simpa using hu)]
        rw [List.length_cons, List.length_cons]
        exact Nat.succ_le_succ ih
      · rw [if_neg (by simpa using hu), if_neg (by simpa using hu)]
        exact ih

theorem PoolInv_insertBatches (maxn : Nat) : PoolInv (insertBatches maxn) := by
  refine ⟨?_, ?_, ?_⟩
  · rw [insertBatches_map_number]
    exact List.nodup_range' _ _
  · intro uid
    have hnil : existingFor (insertBatches maxn) uid = [] := by
      unfold existingFor
      rw [List.filter_eq_nil_iff]
      intro sl hsl hp
      have hu := (insertBatchesN_unassigned (numBatches maxn) 0 maxn sl
        hsl).2.1
      rw [hu] at hp
      simp at hp
    rw [hnil]
    simp
  · intro sl hsl _
    exact (insertBatchesN_unassigned (numBatches maxn) 0 maxn sl hsl).2.1

theorem PoolInv_update (rows : List Slot) (n : Nat) (uid : String) (now : Nat)
    (hinv : PoolInv rows) (hex : existingFor rows uid = []) :
    PoolInv (updateByNumber rows n uid now) := by
  obtain ⟨hnd, hcnt, hun⟩ := hinv
  refine ⟨?_, ?_, ?_⟩
  · rw [updateByNumber_map_number]
    exact hnd
  · intro u
    by_cases hu : u = uid
    · subst hu
      rw [existingFor_update rows n u now hex]
      rw [List.length_map]
      exact filter_number_length_le_one rows n hnd
    · exact le_trans (existingFor_update_ne rows n uid u now hu) (hcnt u)
  · intro sl hsl hsla
    unfold updateByNumber at hsl
    rcases List.mem_map.mp hsl with ⟨a, ha, rfl⟩
    by_cases han : a.number = n
    · rw [if_pos han] at hsla
      simp at hsla
    · rw [if_neg han] at hsla ⊢
      exact hun a ha hsla

theorem allocate_store (s : Store) (session : Option Nat) (uid name : String)
    (pick now : Nat) :
    (allocate s session uid name pick now).2.1 = s ∨
    (check_table_exists s name = true ∧
      existingFor (getSlots s name) uid = [] ∧ session = none ∧
      availableNumbers (getSlots s name) ≠ [] ∧
      (allocate s session uid name pick now).2.1 =
        setTable s name (updateByNumber (getSlots s name)
          (chooseFrom (availableNumbers (getSlots s name)) pick) uid now)) := by
  by_cases htab : check_table_exists s name
  · simp only [allocate, htab, if_true]
    cases hex : existingFor (getSlots s name) uid with
    | cons sl rest => exact Or.inl rfl
    | nil =>
      cases session with
      | some n => exact Or.inl rfl
      | none =>
        cases hav : (availableNumbers (getSlots s name)).isEmpty with
        | true => exact Or.inl rfl
        | false =>
          refine Or.inr ⟨by trivial, rfl, rfl, ?_, rfl⟩
          intro hnil
          rw [hnil] at hav
          simp at hav
  · rw [Bool.not_eq_true] at htab
    simp only [allocate, htab]
    exact Or.inl rfl

theorem Reachable_inv (name : String) (s : Store) (h : Reachable name s) :
    PoolInv (getSlots s name) := by
  induction h with
  | provisioned s0 mname now maxn hfresh =>
    have hset : getSlots (create_meeting_table s0 name mname now maxn) name =
        insertBatches maxn := getSlots_setTable _ _ _
    rw [hset]
    exact PoolInv_insertBatches maxn
  | step s0 session uid pick now h ih =>
    rcases allocate_store s0 session uid name pick now with hst |
      ⟨htab, hex, hsn, hne, hst⟩
    · rw [hst]
      exact ih
    · rw [hst, getSlots_setTable]
      exact PoolInv_update _ _ _ _ ih hex

theorem allocate_ok_mem (s : Store) (uid name : String) (pick now n : Nat)
    (s' : Store) (o : Option Nat)
    (h : allocate s none uid name pick now = (AllocResult.ok n, s', o)) :
    ∃ sl ∈ getSlots s' name, sl.number = n ∧ sl.user_id = some uid := by
  obtain ⟨_, sl, rest, hex, hn⟩ :=
    allocate_ok_state s uid name pick now n s' o h
  have hmem : sl ∈ existingFor (getSlots s' name) uid := by
    rw [hex]
    exact List.mem_cons_self _ _
  have hf := List.mem_filter.mp hmem
  exact ⟨sl, hf.1, hn, by simpa using hf.2⟩

theorem allocate_ok_source (s : Store) (uid name : String) (pick now n : Nat)
    (s' : Store) (o : Option Nat)
    (h : allocate s none uid name pick now = (AllocResult.ok n, s', o)) :
    ∃ sl ∈ getSlots s name, sl.number = n ∧
      (sl.user_id = some uid ∨ sl.assigned = false) := by
  by_cases htab : check_table_exists s name
  · simp only [allocate, htab, if_true] at h
    cases hex : existingFor (getSlots s name) uid with
    | cons sl rest =>
      rw [hex] at h
      simp only [Prod.mk.injEq, AllocResult.ok.injEq] at h
      have hmem : sl ∈ existingFor (getSlots s name) uid := by
        rw [hex]
        exact List.mem_cons_self _ _
      have hf := List.mem_filter.mp hmem
      exact ⟨sl, hf.1, h.1, Or.inl (by simpa using hf.2)⟩
    | nil =>
      rw [hex] at h
      cases hav : (availableNumbers (getSlots s name)).isEmpty with
      | true =>
        rw [hav] at h
        simp at h
      | false =>
        rw [hav] at h
        simp only [Bool.false_eq_true, if_false, Prod.mk.injEq,
          AllocResult.ok.injEq] at h
        have hne : availableNumbers (getSlots s name) ≠ [] := by
          intro hnil
          rw [hnil] at hav
          simp at hav
        have hmem : n ∈ availableNumbers (getSlots s name) := by
          rw [← h.1]
          exact chooseFrom_mem _ pick hne
        obtain ⟨sl0, hf, hnum⟩ := List.mem_map.mp hmem
        have hm := List.mem_filter.mp hf
        exact ⟨sl0, hm.1, hnum, Or.inr (by simpa using hm.2)⟩
  · rw [Bool.not_eq_true] at htab
    simp only [allocate, htab] at h
    simp at h

/-- C3: in every reachable state of a meeting table, each identity holds at
most one slot and each number labels at most one slot; in particular, two
successful allocations by two distinct fresh-session identities return
distinct numbers (Scenario A). -/
theorem C3_uniqueness (name : String) (s : Store) (h : Reachable name s) :
    (∀ uid : String, (existingFor (getSlots s name) uid).length ≤ 1) ∧
    (∀ n : Nat,
      ((getSlots s name).filter fun sl => sl.number = n).length ≤ 1) ∧
    (∀ uidA uidB : String, ∀ pickA nowA pickB nowB nA nB : Nat,
      ∀ s1 s2 : Store, ∀ o1 o2 : Option Nat, uidA ≠ uidB →
      allocate s none uidA name pickA nowA = (AllocResult.ok nA, s1, o1) →
      allocate s1 none uidB name pickB nowB = (AllocResult.ok nB, s2, o2) →
      nA ≠ nB) := by
  have hinv := Reachable_inv name s h
  refine ⟨hinv.2.1, fun n => filter_number_length_le_one _ n hinv.1, ?_⟩
  intro uidA uidB pickA nowA pickB nowB nA nB s1 s2 o1 o2 hAB h1 h2 hEq
  have hr1 : Reachable name s1 := by
    have hstep := Reachable.step s none uidA pickA nowA h
    rw [h1] at hstep
    exact hstep
  have hinv1 := Reachable_inv name s1 hr1
  obtain ⟨slA, hslA, hnumA, huidA⟩ :=
    allocate_ok_mem s uidA name pickA nowA nA s1 o1 h1
  obtain ⟨slB, hslB, hnumB, hsrc⟩ :=
    allocate_ok_source s1 uidB name pickB nowB nB s2 o2 h2
  have hsame : slA = slB :=
    List.inj_on_of_nodup_map hinv1.1 hslA hslB
      (by rw [hnumA, hnumB, hEq])
  rcases hsrc with hu | hassign
  · rw [← hsame, huidA] at hu
    exact hAB (Option.some.inj hu)
  · rw [← hsame] at hassign
    have hnone := hinv1.2.2 slA hslA hassign
    rw [huidA] at hnone
    exact Option.noConfusion hnone

/-- Witness for C3: the freshly provisioned ten-slot pool satisfies the
holder-count bound, and the concrete Scenario A run (identity `a` draws 1,
identity `b` then draws 2) yields distinct numbers. -/
theorem C3_uniqueness_witness :
    (existingFor (getSlots (create_meeting_table emptyStore "t" "Demo" 0 10)
      "t") "a").length ≤ 1 ∧ (1 : Nat) ≠ 2 := by
  constructor
  · exact (C3_uniqueness "t" (create_meeting_table emptyStore "t" "Demo" 0 10)
      (Reachable.provisioned emptyStore "Demo" 0 10 (by decide))).1 "a"
  · exact (C3_uniqueness "t" (create_meeting_table emptyStore "t" "Demo" 0 10)
      (Reachable.provisioned emptyStore "Demo" 0 10 (by decide))).2.2
      "a" "b" 0 1 0 2 1 2
      (setTable (create_meeting_table emptyStore "t" "Demo" 0 10) "t"
        (updateByNumber (insertBatches 10) 1 "a" 1))
      (setTable (setTable (create_meeting_table emptyStore "t" "Demo" 0 10)
        "t" (updateByNumber (insertBatches 10) 1 "a" 1)) "t"
        (updateByNumber (updateByNumber (insertBatches 10) 1 "a" 1) 2 "b" 2))
      (some 1) (some 2) (by decide) (by rfl) (by rfl)
